import Mathlib

/-!
Verification development for `mqtt_reg.py` of the micropython-mqtt-reg
repository.  The Python module is shallowly embedded below: Python dicts
become association lists, MicroPython byte strings become `List Nat`,
stateful methods become explicit state-passing functions, raising code
returns `Except`/`Option` errors, and the cooperative `uasyncio` tasks
are modelled as explicit event/trace transition systems.
-/

namespace MqttReg

/-- Characters of a Python string; topics and register names are short
ASCII strings, modelled as lists of characters. -/
abbrev LStr := List Char

/-- Python dict lookup `d[key]`, as an association list.  Returns `none`
exactly where Python raises `KeyError`. -/
def lookupD {κ α : Type} [DecidableEq κ] : List (κ × α) → κ → Option α
  | [], _ => none
  | (k, v) :: rest, key => if k = key then some v else lookupD rest key

/-- Python dict assignment `d[key] = v`: update in place if the key
exists (keeping its position, as CPython/MicroPython dicts do), append
otherwise. -/
def setD {κ α : Type} [DecidableEq κ] : List (κ × α) → κ → α → List (κ × α)
  | [], key, v => [(key, v)]
  | (k, w) :: rest, key, v =>
      if k = key then (k, v) :: rest else (k, w) :: setD rest key v

theorem lookupD_setD_self {κ α : Type} [DecidableEq κ]
    (d : List (κ × α)) (k : κ) (v : α) : lookupD (setD d k v) k = some v := by
  induction d with
  | nil => simp [setD, lookupD]
  | cons p rest ih =>
      by_cases h : p.1 = k
      · simp [setD, lookupD, h]
      · simp [setD, lookupD, h, ih]

theorem lookupD_setD_ne {κ α : Type} [DecidableEq κ]
    (d : List (κ × α)) (k k' : κ) (v : α) (h : k' ≠ k) :
    lookupD (setD d k v) k' = lookupD d k' := by
  have hne : ¬k = k' := fun hh => h hh.symm
  induction d with
  | nil => simp [setD, lookupD, hne]
  | cons p rest ih =>
      by_cases hp : p.1 = k
      · subst hp
        simp [setD, lookupD, hne]
      · simp [setD, lookupD, hp, ih]

/-- JSON-serializable values carried in register payloads
(`ujson` values; `null` models Python `None`). -/
inductive JVal
  | null
  | jbool (b : Bool)
  | jnum (n : Int)
  | jstr (s : LStr)
deriving DecidableEq

/-- The exception classes that the module can raise while handling a
message, named after the taxonomy they realise:
`unknownRegister` is the `KeyError` of a dict lookup of an undeclared
name, `readOnlyViolation` is `Exception("Cannot set value of read-only
register")`, `decodeError` is a `ujson.load` failure. -/
inductive RegError
  | unknownRegister
  | readOnlyViolation
  | decodeError
deriving DecidableEq

/-- An inbound MQTT payload: empty bytes, well-formed JSON bytes, or
bytes that `ujson.load` rejects. -/
inductive Payload
  | empty
  | json (v : JVal)
  | malformed
deriving DecidableEq

/-- Embeds `value = None if len(message) == 0 else ujson.load(...)`
(lines 352-353 and 363-364 of mqtt_reg.py). -/
def decodePayload : Payload → Except RegError JVal
  | Payload.empty => Except.ok JVal.null
  | Payload.json v => Except.ok v
  | Payload.malformed => Except.error RegError.decodeError

/-- In-memory state of a `ServerRegister` (mqtt_reg.py lines 11-17).
`hasRegistry` records whether `self.registry` is attached (it is set by
`ServerListHandler.__init__`, line 103) or still `None`. -/
structure ServerRegState where
  name : LStr
  value : JVal
  hasRegistry : Bool
deriving DecidableEq

/-- Embeds `ServerRegister.set_value` (lines 28-29): unconditional
in-memory assignment, used by the remote `set` path. -/
def ServerRegister.set_value (r : ServerRegState) (v : JVal) :
    Except RegError ServerRegState :=
  Except.ok { r with value := v }

/-- Embeds `ServerRegister.set_value_local` (lines 31-35): compare old
and new value; only on change store the new value and, if a registry is
attached, request a publish.  Returns the new register state and whether
`registry.publish_register_value` was invoked. -/
def ServerRegister.set_value_local (r : ServerRegState) (v : JVal) :
    ServerRegState × Bool :=
  if r.value ≠ v then ({ r with value := v }, r.hasRegistry) else (r, false)

/-- Embeds `ServerReadOnlyRegister.set_value` (lines 42-43): always
raises; the register state is left untouched (an `Except.error` result
means the caller keeps the old state). -/
def ServerReadOnlyRegister.set_value (r : ServerRegState) (v : JVal) :
    Except RegError ServerRegState :=
  Except.error RegError.readOnlyViolation

/-- `ServerReadOnlyRegister` does not override `set_value_local`
(only `set_value`, lines 37-43), so the local-mutation path of a
read-only register is the inherited `ServerRegister.set_value_local`. -/
def ServerReadOnlyRegister.set_value_local :
    ServerRegState → JVal → ServerRegState × Bool :=
  ServerRegister.set_value_local

/-! ### Persistence adapter (btree store, `PersistentServerRegister`) -/

/-- The durable key-value byte store (`btree` database): keys are
register names, values are byte strings (`List Nat`, one Nat per
byte). -/
abbrev Store := List (String × List Nat)

/-- Python `name in db` membership test. -/
def storeContains (db : Store) (k : String) : Bool :=
  (lookupD db k).isSome

/-- Python `db.get(name)`; the register code only reads keys that are
present (`__init__` guarantees the key exists), so the absent case is
mapped to the empty byte string. -/
def storeGet (db : Store) (k : String) : List Nat :=
  (lookupD db k).getD []

/-- Python `db[name] = bytes`. -/
def storeSet (db : Store) (k : String) (v : List Nat) : Store :=
  setD db k v

/-- Python `db.flush()`: a durability barrier; it does not change the
in-memory contents of the store. -/
def storeFlush (db : Store) : Store := db

/-- A byte codec attached to a concrete `PersistentServerRegister`
subclass: its `to_bytes`/`from_bytes` pair. -/
structure Codec (α : Type) where
  to_bytes : α → List Nat
  from_bytes : List Nat → α

/-- Embeds `BooleanPersistentServerRegister.to_bytes`/`from_bytes`
(lines 80-84): single byte, `b'\x01'` if the value equals `True` else
`b'\x00'`; decoding yields `True` exactly on `b'\x01'`. -/
def booleanCodec : Codec Bool where
  to_bytes v := if v then [1] else [0]
  from_bytes bs := if bs = [1] then true else false

/-- Embeds `FloatPersistentServerRegister.to_bytes`/`from_bytes`
(lines 91-95): `struct.pack('f', v)` emits the 4-byte little-endian
native machine-float representation.  MicroPython machine floats are
single precision, so a float value is modelled by its 32-bit pattern
(a `Nat` below `2 ^ 32`); packing serialises that pattern into 4 bytes
and unpacking reassembles it. -/
def floatCodec : Codec Nat where
  to_bytes v :=
    [v % 256, v / 256 % 256, v / 65536 % 256, v / 16777216 % 256]
  from_bytes bs :=
    match bs with
    | [b0, b1, b2, b3] => b0 + 256 * b1 + 65536 * b2 + 16777216 * b3
    | _ => 0

/-- Embeds `PersistentServerRegister.set_value` (lines 70-72):
serialize, store, flush. -/
def PersistentServerRegister.set_value {α : Type} (c : Codec α)
    (name : String) (v : α) (db : Store) : Store :=
  storeFlush (storeSet db name (c.to_bytes v))

/-- Embeds `PersistentServerRegister.get_value` (lines 67-68):
re-read the durable store and decode. -/
def PersistentServerRegister.get_value {α : Type} (c : Codec α)
    (name : String) (db : Store) : α :=
  c.from_bytes (storeGet db name)

/-- The store effect of `PersistentServerRegister.__init__`
(lines 64-65) at the byte level: if the name is absent from the store,
write the given default bytes (via `set_value`, which flushes). -/
def PersistentServerRegister.constructRaw (name : String)
    (dbytes : List Nat) (db : Store) : Store :=
  if storeContains db name then db else storeFlush (storeSet db name dbytes)

/-- The store effect of `PersistentServerRegister.__init__` for a
concrete codec: write `to_bytes default` iff the name is absent. -/
def PersistentServerRegister.construct {α : Type} (c : Codec α)
    (name : String) (dflt : α) (db : Store) : Store :=
  PersistentServerRegister.constructRaw name (c.to_bytes dflt) db

/-! ### Process-wide default store (`__get_default_db`, lines 45-56) -/

/-- Process-wide state backing the module-level `__default_db` global:
the cached handle (if already opened) and how many times `btree.open`
has run.  `openCount` is a ghost counter used only to state the
open-at-most-once property. -/
structure ProcState where
  defaultDb : Option Store
  openCount : Nat
deriving DecidableEq

/-- Embeds `__get_default_db` (lines 47-56): if the global is `None`,
open the backing file (its contents on open are the parameter `onOpen`)
and cache it; otherwise return the cached handle. -/
def get_default_db (onOpen : Store) (s : ProcState) : Store × ProcState :=
  match s.defaultDb with
  | some db => (db, s)
  | none =>
      (onOpen, { defaultDb := some onOpen, openCount := s.openCount + 1 })

/-- Constructing one `PersistentServerRegister` without an explicit
store handle (`db = None`, line 62): fetch the shared default store,
run the init write, and store the updated contents back into the shared
handle (all registers alias the same db object). -/
def constructWithDefaultDb (onOpen : Store) (name : String)
    (dbytes : List Nat) (s : ProcState) : ProcState :=
  let p := get_default_db onOpen s
  { p.2 with
      defaultDb := some (PersistentServerRegister.constructRaw name dbytes p.1) }

/-- A startup sequence of persistent-register constructions, all without
an explicit store handle. -/
def constructAll (onOpen : Store) (s : ProcState) :
    List (String × List Nat) → ProcState
  | [] => s
  | r :: rs => constructAll onOpen (constructWithDefaultDb onOpen r.1 r.2 s) rs

/-! ### Debounced publish (`Registry.publish_register_value`, lines 186-215) -/

/-- Per-register-name publish state: `counter` is
`publish_in_progress[name]` (the key is created with value `0` on the
first call, lines 207-208), and `running` counts `do_async` publish
tasks that have been created but have not yet run their `finally`
block. -/
structure PubState where
  counter : Nat
  running : Nat
deriving DecidableEq

/-- Embeds the synchronous body of `publish_register_value`
(lines 210-215): if the counter is below 2, increment it and create the
publish task (result flag `true`); otherwise drop the request leaving
the state unchanged (flag `false`). -/
def pubRequest (s : PubState) : PubState × Bool :=
  if s.counter < 2 then
    ({ counter := s.counter + 1, running := s.running + 1 }, true)
  else
    (s, false)

/-- Embeds the `finally` block of the publish task (lines 202-205),
which runs on completion whether the publish succeeded or raised:
re-read the counter and, if positive, decrement it. -/
def pubFinally (s : PubState) : PubState :=
  { counter := if 0 < s.counter then s.counter - 1 else s.counter,
    running := s.running - 1 }

/-- The publish states reachable for one register name: from the idle
state, by calls to `publish_register_value` and by completions of
launched publish tasks (a completion requires a running task). -/
inductive PubReach : PubState → Prop
  | init : PubReach { counter := 0, running := 0 }
  | request (s : PubState) : PubReach s → PubReach (pubRequest s).1
  | complete (s : PubState) : PubReach s → 0 < s.running → PubReach (pubFinally s)

/-- A burst of `n` back-to-back `publish_register_value` calls with no
intervening completion; returns the final state and how many calls
actually launched a publish task. -/
def requestRun : Nat → PubState → PubState × Nat
  | 0, s => (s, 0)
  | n + 1, s =>
      ((requestRun n (pubRequest s).1).1,
       (if (pubRequest s).2 then 1 else 0) + (requestRun n (pubRequest s).1).2)

theorem pubReach_inv {s : PubState} (h : PubReach s) :
    s.counter = s.running ∧ s.counter ≤ 2 := by
  induction h with
  | init => exact ⟨rfl, by decide⟩
  | request t _ ih =>
      by_cases hc : t.counter < 2
      · simp [pubRequest, hc]
        omega
      · simp [pubRequest, hc]
        exact ih
  | complete t _ hr ih =>
      have hc : 0 < t.counter := by omega
      simp [pubFinally, hc]
      omega

theorem requestRun_launch_bound (n : Nat) :
    ∀ s : PubState, s.counter ≤ 2 → (requestRun n s).2 + s.counter ≤ 2 := by
  induction n with
  | zero => intro s hs; simpa [requestRun] using hs
  | succ m ih =>
      intro s hs
      by_cases hc : s.counter < 2
      · have hih := ih { counter := s.counter + 1, running := s.running + 1 }
          (show s.counter + 1 ≤ 2 by omega)
        have hih' :
            (requestRun m
              ({ counter := s.counter + 1, running := s.running + 1 } :
                PubState)).2 + (s.counter + 1) ≤ 2 := hih
        simp [requestRun, pubRequest, hc]
        omega
      · have hih := ih s hs
        simp [requestRun, pubRequest, hc]
        omega

/-! ### Topic strings and their parsing (read_messages, lines 330-369) -/

/-- Python `str.startswith` on character lists. -/
def listStartsWith : LStr → LStr → Bool
  | _, [] => true
  | [], _ :: _ => false
  | c :: cs, p :: ps => c == p && listStartsWith cs ps

/-- Python `str.endswith` on character lists: the reversed string must
start with the reversed pattern. -/
def listEndsWith (l e : LStr) : Bool :=
  listStartsWith l.reverse e.reverse

/-- Python slice `topic[9:-sufLen]`: drop the 9-character
`register/` head and the `sufLen`-character tail. -/
def sliceName (topic : LStr) (sufLen : Nat) : LStr :=
  (topic.drop 9).take (topic.length - 9 - sufLen)

/-- The topic `register/advertise!` (line 336). -/
def advertiseTopic : LStr :=
  ['r', 'e', 'g', 'i', 's', 't', 'e', 'r', '/', 'a', 'd', 'v', 'e', 'r',
   't', 'i', 's', 'e', '!']

/-- The topic-family head `register/` (line 341). -/
def registerTopicHead : LStr := ['r', 'e', 'g', 'i', 's', 't', 'e', 'r', '/']

/-- The suffix `/get` (line 343). -/
def getEnding : LStr := ['/', 'g', 'e', 't']

/-- The suffix `/set` (line 350). -/
def setEnding : LStr := ['/', 's', 'e', 't']

/-- The suffix `/is` (line 361). -/
def isEnding : LStr := ['/', 'i', 's']

/-- The full topic `register/<name><ending>` for a register name. -/
def mkTopic (name ending : LStr) : LStr :=
  registerTopicHead ++ (name ++ ending)

theorem listStartsWith_append (p l : LStr) :
    listStartsWith (p ++ l) p = true := by
  induction p with
  | nil =>
      cases l <;> simp [listStartsWith]
  | cons c cs ih => simp [listStartsWith, ih]

theorem listEndsWith_append (a e : LStr) : listEndsWith (a ++ e) e = true := by
  unfold listEndsWith
  rw [List.reverse_append]
  exact listStartsWith_append e.reverse a.reverse

theorem listStartsWith_cons_false (c d : Char) (l p : LStr)
    (h : (c == d) = false) :
    listStartsWith (c :: l) (d :: p) = false := by
  simp [listStartsWith, h]

theorem listEndsWith_concat_false (a p : LStr) (x y : Char)
    (h : (x == y) = false) :
    listEndsWith (a ++ [x]) (p ++ [y]) = false := by
  unfold listEndsWith
  rw [List.reverse_append, List.reverse_append]
  simp only [List.reverse_singleton, List.singleton_append]
  exact listStartsWith_cons_false x y a.reverse p.reverse h

theorem revHead_concat (a : LStr) (x : Char) :
    (a ++ [x]).reverse.head? = some x := by
  simp [List.reverse_append]

theorem drop_len_append (a b : LStr) : (a ++ b).drop a.length = b := by
  induction a with
  | nil => simp
  | cons c cs ih => simpa [List.length_cons] using ih

theorem take_len_append (a b : LStr) : (a ++ b).take a.length = a := by
  induction a with
  | nil => simp
  | cons c cs ih => simpa [List.length_cons] using ih

theorem mkTopic_is_concat (name : LStr) :
    mkTopic name isEnding = (registerTopicHead ++ (name ++ ['/', 'i'])) ++ ['s'] := by
  simp [mkTopic, isEnding, List.append_assoc]

theorem advertiseTopic_concat :
    advertiseTopic =
      (['r', 'e', 'g', 'i', 's', 't', 'e', 'r', '/', 'a', 'd', 'v', 'e',
        'r', 't', 'i', 's', 'e'] : LStr) ++ ['!'] := rfl

theorem mkTopic_is_ne_advertise (name : LStr) :
    mkTopic name isEnding ≠ advertiseTopic := by
  intro h
  rw [mkTopic_is_concat, advertiseTopic_concat] at h
  have h2 := congrArg (fun l : LStr => l.reverse.head?) h
  simp only [revHead_concat] at h2
  exact absurd (Option.some.inj h2) (by decide)

theorem mkTopic_startsWith_head (name ending : LStr) :
    listStartsWith (mkTopic name ending) registerTopicHead = true := by
  unfold mkTopic
  exact listStartsWith_append registerTopicHead (name ++ ending)

theorem mkTopic_is_not_get (name : LStr) :
    listEndsWith (mkTopic name isEnding) getEnding = false := by
  rw [mkTopic_is_concat]
  have : getEnding = (['/', 'g', 'e'] : LStr) ++ ['t'] := rfl
  rw [this]
  exact listEndsWith_concat_false _ _ 's' 't' (by decide)

theorem mkTopic_is_not_set (name : LStr) :
    listEndsWith (mkTopic name isEnding) setEnding = false := by
  rw [mkTopic_is_concat]
  have : setEnding = (['/', 's', 'e'] : LStr) ++ ['t'] := rfl
  rw [this]
  exact listEndsWith_concat_false _ _ 's' 't' (by decide)

theorem mkTopic_is_endsWith (name : LStr) :
    listEndsWith (mkTopic name isEnding) isEnding = true := by
  unfold mkTopic
  rw [show registerTopicHead ++ (name ++ isEnding)
        = (registerTopicHead ++ name) ++ isEnding by simp [List.append_assoc]]
  exact listEndsWith_append _ _

theorem sliceName_mkTopic (name ending : LStr) :
    sliceName (mkTopic name ending) ending.length = name := by
  unfold sliceName mkTopic
  have hdrop : (registerTopicHead ++ (name ++ ending)).drop 9 = name ++ ending := by
    rw [show (9 : Nat) = registerTopicHead.length from rfl]
    exact drop_len_append _ _
  have hlen : (registerTopicHead ++ (name ++ ending)).length
      = 9 + (name.length + ending.length) := by
    simp [registerTopicHead]
    omega
  rw [hdrop, hlen]
  rw [show 9 + (name.length + ending.length) - 9 - ending.length
        = name.length by omega]
  exact take_len_append _ _

/-! ### Registry engine state and inbound dispatch -/

/-- A server register as seen by the dispatcher: its kind (the
read-only subclass or the writable base class) and its current value. -/
structure SrvReg where
  readOnly : Bool
  value : JVal
deriving DecidableEq

/-- The mutable engine state touched by the inbound-dispatch and timer
subsystems of `Registry`.  `client_timeouts` and `publish_in_progress`
are the dicts of the same names (lines 160-161); `cancelledTasks`,
`nextTaskId` and `timerLog` model the `uasyncio` task handles:
`nextTaskId` allocates a fresh id for each created timer task,
`cancelledTasks` collects the ids on which `.cancel()` was called, and
`timerLog` is a ghost log of every `(name, taskId)` timer ever created
by `reset_client_timeout` (used only to state invariants).  `pubTasks`
and `advTasks` count created publish/advertise tasks. -/
structure RegistryState where
  serverRegs : List (LStr × SrvReg)
  clientRegs : List (LStr × JVal)
  client_timeouts : List (LStr × Nat)
  publish_in_progress : List (LStr × Nat)
  advertise_in_progress : Bool
  cancelledTasks : List Nat
  nextTaskId : Nat
  pubTasks : Nat
  advTasks : Nat
  timerLog : List (LStr × Nat)

/-- The engine state right after `Registry.__init__` (lines 149-174):
both dicts empty, the advertise flag clear, no tasks yet. -/
def initRegistry (srv : List (LStr × SrvReg)) (cli : List (LStr × JVal)) :
    RegistryState where
  serverRegs := srv
  clientRegs := cli
  client_timeouts := []
  publish_in_progress := []
  advertise_in_progress := false
  cancelledTasks := []
  nextTaskId := 0
  pubTasks := 0
  advTasks := 0
  timerLog := []

/-- Embeds `ServerListHandler.set_value` (lines 114-115) as invoked by
the dispatcher: `self.registers[name].set_value(value)`.  The dict
lookup of an undeclared name raises `KeyError` (`unknownRegister`), and
the read-only subclass raises on `set_value`; in both cases the state
is unchanged. -/
def serverSetValue (s : RegistryState) (name : LStr) (v : JVal) :
    Except RegError RegistryState :=
  match lookupD s.serverRegs name with
  | none => Except.error RegError.unknownRegister
  | some r =>
      if r.readOnly then Except.error RegError.readOnlyViolation
      else Except.ok
        { s with serverRegs := setD s.serverRegs name { r with value := v } }

/-- Embeds `ClientListHandler.set_value` (lines 142-143):
`self.registers[name].set_value(value)`; lookup of an undeclared name
raises `KeyError`. -/
def clientSetValue (s : RegistryState) (name : LStr) (v : JVal) :
    Except RegError RegistryState :=
  match lookupD s.clientRegs name with
  | none => Except.error RegError.unknownRegister
  | some _ => Except.ok { s with clientRegs := setD s.clientRegs name v }

/-- Embeds `Registry.reset_client_timeout` (lines 237-265), registry
side: cancel the existing timer task for the name if there is one
(lines 262-263), then create a fresh timer task and install its handle
(line 265).  The ghost `timerLog` records the creation. -/
def Registry.reset_client_timeout (s : RegistryState) (name : LStr) :
    RegistryState :=
  let s1 :=
    match lookupD s.client_timeouts name with
    | some tid => { s with cancelledTasks := tid :: s.cancelledTasks }
    | none => s
  { s1 with
      client_timeouts := setD s1.client_timeouts name s1.nextTaskId,
      nextTaskId := s1.nextTaskId + 1,
      timerLog := (name, s1.nextTaskId) :: s1.timerLog }

/-- Embeds the synchronous part of `Registry.publish_register_value`
(lines 207-215): create the dict key with value 0 if absent, then if
the counter is below 2 increment it and create the publish task, else
drop the request. -/
def Registry.publish_register_value (s : RegistryState) (name : LStr) :
    RegistryState :=
  let d :=
    match lookupD s.publish_in_progress name with
    | some _ => s.publish_in_progress
    | none => setD s.publish_in_progress name 0
  let c := (lookupD d name).getD 0
  if c < 2 then
    { s with publish_in_progress := setD d name (c + 1),
             pubTasks := s.pubTasks + 1 }
  else
    { s with publish_in_progress := d }

/-- Embeds the synchronous part of `Registry.advertise_registers`
(lines 234-235): if no broadcast is in flight, create the broadcast
task; otherwise do nothing. -/
def Registry.advertise_request (s : RegistryState) : RegistryState :=
  if s.advertise_in_progress then s else { s with advTasks := s.advTasks + 1 }

/-- Embeds the per-message body of `read_messages` (lines 333-369): the
topic dispatch for one non-retained message.  The returned
`Option RegError` is the exception (if any) that reached the
per-message `except` handler (lines 371-373); the returned state keeps
every side effect performed before the raise. -/
def Registry.handle_message (s : RegistryState) (topic : LStr)
    (payload : Payload) : RegistryState × Option RegError :=
  if topic = advertiseTopic then
    (Registry.advertise_request s, none)
  else if listStartsWith topic registerTopicHead then
    if listEndsWith topic getEnding then
      (Registry.publish_register_value s (sliceName topic 4), none)
    else if listEndsWith topic setEnding then
      match decodePayload payload with
      | Except.error e => (s, some e)
      | Except.ok v =>
          match serverSetValue s (sliceName topic 4) v with
          | Except.error e => (s, some e)
          | Except.ok s1 =>
              (Registry.publish_register_value s1 (sliceName topic 4), none)
    else if listEndsWith topic isEnding then
      match decodePayload payload with
      | Except.error e => (s, some e)
      | Except.ok v =>
          match clientSetValue (Registry.reset_client_timeout s (sliceName topic 3))
              (sliceName topic 3) v with
          | Except.error e => (Registry.reset_client_timeout s (sliceName topic 3), some e)
          | Except.ok s2 => (s2, none)
    else (s, none)
  else (s, none)

/-- One inbound transport message: topic, payload, retained flag. -/
structure Msg where
  topic : LStr
  payload : Payload
  retained : Bool

/-- Embeds the `read_messages` loop (lines 330-375): retained messages
are skipped; each non-retained message is handled inside the
per-message try/except, its outcome (the caught exception, if any) is
recorded, and the loop continues with the remaining messages. -/
def Registry.read_messages (s : RegistryState) :
    List Msg → RegistryState × List (Option RegError)
  | [] => (s, [])
  | m :: ms =>
      if m.retained then Registry.read_messages s ms
      else
        ((Registry.read_messages (Registry.handle_message s m.topic m.payload).1 ms).1,
         (Registry.handle_message s m.topic m.payload).2 ::
           (Registry.read_messages (Registry.handle_message s m.topic m.payload).1 ms).2)

/-! ### Liveness timer tasks (`reset_client_timeout`, lines 237-265) -/

/-- A sequence of `reset_client_timeout` calls applied to the engine
(the only operation that creates or cancels timer tasks). -/
def resetSeq (s : RegistryState) : List LStr → RegistryState
  | [] => s
  | n :: ns => resetSeq (Registry.reset_client_timeout s n) ns

/-- At most one live (created and not cancelled) timer task exists per
client-register name: any two uncancelled entries of the ghost creation
log for the same name are the same task. -/
def atMostOneLiveTimer (s : RegistryState) : Prop :=
  ∀ n t1 t2, (n, t1) ∈ s.timerLog → (n, t2) ∈ s.timerLog →
    t1 ∉ s.cancelledTasks → t2 ∉ s.cancelledTasks → t1 = t2

/-- Invariant tying the ghost log to the live handle dict: every ever
created timer task is either cancelled or the currently installed one,
and all recorded task ids are below the allocator. -/
def timerInv (s : RegistryState) : Prop :=
  (∀ n tid, (n, tid) ∈ s.timerLog →
      tid ∈ s.cancelledTasks ∨ lookupD s.client_timeouts n = some tid) ∧
  (∀ tid, tid ∈ s.cancelledTasks → tid < s.nextTaskId) ∧
  (∀ n tid, lookupD s.client_timeouts n = some tid → tid < s.nextTaskId)

/-- An observable action of one iteration of the timer-task body
`do_async` (lines 239-260). -/
inductive TimerAct
  | sleepJitter (ms : Nat)
  | publishGet
  | sleepFixed (ms : Nat)
  | clearValue
deriving DecidableEq

/-- The actions of the first `n` loop iterations of the timer-task body
`do_async(first)` (lines 239-260), given the stream `js` of values
returned by `random.randint(8000, 12000)`: unless this is the immediate
first invocation, sleep the jittered duration; then publish the `get`
poll, wait the fixed 10000 ms, and clear the shadow value; then loop
with `first = False`. -/
def timerRun (first : Bool) (js : Nat → Nat) : Nat → List TimerAct
  | 0 => []
  | n + 1 =>
      (if first then [] else [TimerAct.sleepJitter (js 0)]) ++
        TimerAct.publishGet :: TimerAct.sleepFixed 10000 ::
          TimerAct.clearValue :: timerRun false (fun i => js (i + 1)) n

/-- Scheduler-level events for the timer subsystem: a
`reset_client_timeout` call, or a cancelled-or-live task attempting to
run one action. -/
inductive TimerEv
  | reset (n : LStr)
  | fire (tid : Nat) (a : TimerAct)

/-- Validity of an event trace under cooperative `uasyncio` semantics:
a task on which `.cancel()` has been called never runs again, so a
`fire` of a cancelled task id is not a valid step. -/
def validTrace (s : RegistryState) : List TimerEv → Bool
  | [] => true
  | TimerEv.reset n :: evs => validTrace (Registry.reset_client_timeout s n) evs
  | TimerEv.fire tid _ :: evs =>
      if tid ∈ s.cancelledTasks then false else validTrace s evs

/-! ### Connection lifecycle (`run_async`, lines 273-283) -/

/-- Outcome of one `mqtt_client.connect()` attempt: success, or an
exception whose `str(e)` is the given message. -/
inductive ConnOutcome
  | ok
  | err (msg : LStr)

/-- Observable actions of the connect retry loop. -/
inductive ConnAct
  | attempt
  | connected
  | backoffSleep (ms : Nat)
  | deviceReset
deriving DecidableEq

/-- The distinguished fatal link-layer failure:
`str(e) == 'Wifi Internal Error'` (line 282). -/
def wifiFatalMsg : LStr :=
  ['W', 'i', 'f', 'i', ' ', 'I', 'n', 't', 'e', 'r', 'n', 'a', 'l', ' ',
   'E', 'r', 'r', 'o', 'r']

/-- Embeds the connect loop (lines 273-283) as the trace of actions it
performs on a given list of connect outcomes: on success, break; on
failure, sleep 5000 ms, then if the message is the fatal one invoke
`machine.reset()` (which halts everything), otherwise retry.  An
exhausted outcome list ends the modelled trace. -/
def connectLoop : List ConnOutcome → List ConnAct
  | [] => []
  | ConnOutcome.ok :: _ => [ConnAct.attempt, ConnAct.connected]
  | ConnOutcome.err m :: rest =>
      ConnAct.attempt :: ConnAct.backoffSleep 5000 ::
        (if m = wifiFatalMsg then [ConnAct.deviceReset] else connectLoop rest)

/-! ### Advertise broadcast (`advertise_registers`, lines 217-235) -/

/-- The topic `register/<name>/advertise` (line 229). -/
def advTopic (name : LStr) : LStr :=
  registerTopicHead ++ (name ++
    ['/', 'a', 'd', 'v', 'e', 'r', 't', 'i', 's', 'e'])

/-- The publishes attempted by the broadcast task body `do_async`
(lines 221-232): walk the server names in declared order publishing
each register's metadata; `ok i` says whether the i-th publish
succeeds — a failed publish raises out of the loop (so later names are
not attempted), but is itself still an attempt. -/
def advertiseBody (metaOf : LStr → JVal) :
    List LStr → (Nat → Bool) → List (LStr × JVal)
  | [], _ => []
  | n :: ns, ok =>
      (advTopic n, metaOf n) ::
        (if ok 0 then advertiseBody metaOf ns (fun i => ok (i + 1)) else [])

/-- Embeds `Registry.advertise_registers` (lines 217-235) end to end
under cooperative scheduling: if the reentrancy flag is set, do nothing;
otherwise run the broadcast task, whose `finally` (line 231-232) clears
the flag whether the publishes succeeded or raised.  Returns the final
flag value and the list of attempted publishes. -/
def Registry.advertise_registers (flag : Bool) (names : List LStr)
    (metaOf : LStr → JVal) (ok : Nat → Bool) : Bool × List (LStr × JVal) :=
  if flag then (flag, [])
  else (false, advertiseBody metaOf names ok)

/-! ### Helper lemmas about the timer subsystem -/

theorem reset_clientRegs (s : RegistryState) (n : LStr) :
    (Registry.reset_client_timeout s n).clientRegs = s.clientRegs := by
  unfold Registry.reset_client_timeout
  cases lookupD s.client_timeouts n <;> rfl

theorem reset_nextTaskId (s : RegistryState) (n : LStr) :
    (Registry.reset_client_timeout s n).nextTaskId = s.nextTaskId + 1 := by
  unfold Registry.reset_client_timeout
  cases lookupD s.client_timeouts n <;> rfl

theorem reset_timeouts (s : RegistryState) (n : LStr) :
    (Registry.reset_client_timeout s n).client_timeouts
      = setD s.client_timeouts n s.nextTaskId := by
  unfold Registry.reset_client_timeout
  cases lookupD s.client_timeouts n <;> rfl

theorem reset_cancelled_mono (s : RegistryState) (n : LStr) (tid : Nat)
    (h : tid ∈ s.cancelledTasks) :
    tid ∈ (Registry.reset_client_timeout s n).cancelledTasks := by
  unfold Registry.reset_client_timeout
  cases lookupD s.client_timeouts n <;> simp [h]

theorem reset_cancels_old (s : RegistryState) (n : LStr) (tid : Nat)
    (h : lookupD s.client_timeouts n = some tid) :
    tid ∈ (Registry.reset_client_timeout s n).cancelledTasks := by
  unfold Registry.reset_client_timeout
  rw [h]
  simp

theorem reset_installs_fresh (s : RegistryState) (n : LStr) :
    lookupD (Registry.reset_client_timeout s n).client_timeouts n
      = some s.nextTaskId := by
  rw [reset_timeouts]
  exact lookupD_setD_self _ _ _

theorem reset_timerLog (s : RegistryState) (n : LStr) :
    (Registry.reset_client_timeout s n).timerLog
      = (n, s.nextTaskId) :: s.timerLog := by
  unfold Registry.reset_client_timeout
  cases lookupD s.client_timeouts n <;> rfl

theorem reset_cancelled_none (s : RegistryState) (n : LStr)
    (h : lookupD s.client_timeouts n = none) :
    (Registry.reset_client_timeout s n).cancelledTasks = s.cancelledTasks := by
  unfold Registry.reset_client_timeout
  rw [h]

theorem reset_cancelled_some (s : RegistryState) (n : LStr) (tid : Nat)
    (h : lookupD s.client_timeouts n = some tid) :
    (Registry.reset_client_timeout s n).cancelledTasks
      = tid :: s.cancelledTasks := by
  unfold Registry.reset_client_timeout
  rw [h]

theorem timerInv_init (srv : List (LStr × SrvReg)) (cli : List (LStr × JVal)) :
    timerInv (initRegistry srv cli) := by
  refine ⟨?_, ?_, ?_⟩
  · intro n tid hmem
    simp [initRegistry] at hmem
  · intro tid htid
    simp [initRegistry] at htid
  · intro n tid hl
    simp [initRegistry, lookupD] at hl

theorem timerInv_reset (s : RegistryState) (m : LStr) (h : timerInv s) :
    timerInv (Registry.reset_client_timeout s m) := by
  obtain ⟨h1, h2, h3⟩ := h
  refine ⟨?_, ?_, ?_⟩
  · intro n tid hmem
    rw [reset_timerLog] at hmem
    rw [reset_timeouts]
    rw [List.mem_cons] at hmem
    rcases hmem with heq | hmem
    · rw [Prod.mk.injEq] at heq
      obtain ⟨hn, ht⟩ := heq
      subst hn
      subst ht
      right
      exact lookupD_setD_self _ _ _
    · rcases h1 n tid hmem with hc | hl
      · exact Or.inl (reset_cancelled_mono s m tid hc)
      · by_cases hn : n = m
        · subst hn
          exact Or.inl (reset_cancels_old s n tid hl)
        · right
          rw [lookupD_setD_ne _ m n _ hn]
          exact hl
  · intro tid htid
    rw [reset_nextTaskId]
    rcases hold : lookupD s.client_timeouts m with _ | old
    · rw [reset_cancelled_none s m hold] at htid
      exact Nat.lt_succ_of_lt (h2 tid htid)
    · rw [reset_cancelled_some s m old hold] at htid
      rw [List.mem_cons] at htid
      rcases htid with heq | htid
      · exact heq ▸ Nat.lt_succ_of_lt (h3 m old hold)
      · exact Nat.lt_succ_of_lt (h2 tid htid)
  · intro n tid hl
    rw [reset_timeouts] at hl
    rw [reset_nextTaskId]
    by_cases hn : n = m
    · subst hn
      rw [lookupD_setD_self] at hl
      have := Option.some.inj hl
      omega
    · rw [lookupD_setD_ne _ m n _ hn] at hl
      exact Nat.lt_succ_of_lt (h3 n tid hl)

theorem timerInv_resetSeq (names : List LStr) :
    ∀ s : RegistryState, timerInv s → timerInv (resetSeq s names) := by
  induction names with
  | nil => intro s h; exact h
  | cons n ns ih =>
      intro s h
      exact ih _ (timerInv_reset s n h)

theorem atMostOne_of_inv (s : RegistryState) (h : timerInv s) :
    atMostOneLiveTimer s := by
  intro n t1 t2 hm1 hm2 hc1 hc2
  rcases h.1 n t1 hm1 with hc | hl1
  · exact absurd hc hc1
  · rcases h.1 n t2 hm2 with hc | hl2
    · exact absurd hc hc2
    · rw [hl1] at hl2
      exact Option.some.inj hl2

theorem validTrace_no_cancelled_fire (evs : List TimerEv) :
    ∀ s : RegistryState, validTrace s evs = true →
      ∀ tid, tid ∈ s.cancelledTasks → ∀ a, TimerEv.fire tid a ∉ evs := by
  induction evs with
  | nil => intro s _ tid _ a; simp
  | cons e rest ih =>
      intro s hv tid htid a
      rw [List.mem_cons]
      rintro (heq | hmem)
      · rw [← heq] at hv
        simp only [validTrace, if_pos htid] at hv
        exact Bool.false_ne_true hv
      · cases e with
        | reset n =>
            simp only [validTrace] at hv
            exact ih _ hv tid (reset_cancelled_mono s n tid htid) a hmem
        | fire tid2 a2 =>
            by_cases hc : tid2 ∈ s.cancelledTasks
            · simp only [validTrace, if_pos hc] at hv
              exact Bool.false_ne_true hv
            · simp only [validTrace, if_neg hc] at hv
              exact ih s hv tid htid a hmem

/-! ### Helper lemmas for the persistence claims -/

theorem storeGet_storeSet (db : Store) (k : String) (v : List Nat) :
    storeGet (storeSet db k v) k = v := by
  unfold storeGet storeSet
  rw [lookupD_setD_self]
  rfl

theorem storeContains_storeSet (db : Store) (k : String) (v : List Nat) :
    storeContains (storeSet db k v) k = true := by
  unfold storeContains storeSet
  rw [lookupD_setD_self]
  rfl

theorem booleanCodec_roundtrip (b : Bool) :
    booleanCodec.from_bytes (booleanCodec.to_bytes b) = b := by
  cases b <;> simp [booleanCodec]

theorem floatCodec_roundtrip (v : Nat) (h : v < 4294967296) :
    floatCodec.from_bytes (floatCodec.to_bytes v) = v := by
  simp only [floatCodec]
  omega

theorem get_value_after_set {α : Type} (c : Codec α) (name : String) (x : α)
    (db : Store) (hround : c.from_bytes (c.to_bytes x) = x) :
    PersistentServerRegister.get_value c name
      (PersistentServerRegister.set_value c name x db) = x := by
  unfold PersistentServerRegister.get_value PersistentServerRegister.set_value
    storeFlush
  rw [storeGet_storeSet]
  exact hround

theorem construct_after_set {α : Type} (c : Codec α) (name : String)
    (dflt x : α) (db : Store) :
    PersistentServerRegister.construct c name dflt
        (PersistentServerRegister.set_value c name x db)
      = PersistentServerRegister.set_value c name x db := by
  unfold PersistentServerRegister.construct PersistentServerRegister.constructRaw
  have hc : storeContains
      (PersistentServerRegister.set_value c name x db) name = true := by
    unfold PersistentServerRegister.set_value storeFlush
    exact storeContains_storeSet db name (c.to_bytes x)
  simp [hc]

theorem constructAll_opened (onOpen : Store) (reqs : List (String × List Nat)) :
    ∀ s : ProcState, s.defaultDb.isSome = true →
      (constructAll onOpen s reqs).defaultDb.isSome = true ∧
      (constructAll onOpen s reqs).openCount = s.openCount := by
  induction reqs with
  | nil => intro s h; exact ⟨h, rfl⟩
  | cons r rs ih =>
      intro s h
      rcases hdb : s.defaultDb with _ | db
      · rw [hdb] at h
        simp at h
      · have hstep : constructWithDefaultDb onOpen r.1 r.2 s
            = { s with
                defaultDb := some (PersistentServerRegister.constructRaw r.1 r.2 db) } := by
          unfold constructWithDefaultDb get_default_db
          rw [hdb]
        rw [constructAll, hstep]
        exact ih _ (by simp)

/-! ### Claim theorems -/

/-- Claim C2: for every register name, the publish-in-progress counter
stays within `[0, 2]` (and always equals the number of running publish
tasks); a `publish_register_value` call while the counter is below 2
increments it by exactly 1 and launches a publish task; the completion
of a launched task (success or raise, via the `finally` block)
decrements the counter by exactly 1, never below 0; a call while the
counter equals 2 is dropped without incrementing or launching; and any
burst of back-to-back calls (in particular 3 or more) launches at most
2 publish attempts. -/
theorem publish_counter_bounded_and_debounced :
    (∀ s : PubState, PubReach s → s.counter ≤ 2 ∧ s.counter = s.running) ∧
    (∀ s : PubState, s.counter < 2 →
        pubRequest s
          = ({ counter := s.counter + 1, running := s.running + 1 }, true)) ∧
    (∀ s : PubState, s.counter = 2 → pubRequest s = (s, false)) ∧
    (∀ s : PubState, PubReach s → 0 < s.running →
        0 < s.counter ∧ (pubFinally s).counter = s.counter - 1 ∧
          (pubFinally s).running = s.running - 1) ∧
    (∀ s : PubState, PubReach s → ∀ n : Nat, (requestRun n s).2 ≤ 2) := by
  refine ⟨?_, ?_, ?_, ?_, ?_⟩
  · intro s h
    have hinv := pubReach_inv h
    exact ⟨hinv.2, hinv.1⟩
  · intro s hc
    simp [pubRequest, hc]
  · intro s hc
    simp [pubRequest, hc]
  · intro s h hr
    have hinv := pubReach_inv h
    have hc : 0 < s.counter := by omega
    exact ⟨hc, by simp [pubFinally, hc], rfl⟩
  · intro s h n
    have hinv := pubReach_inv h
    have hb := requestRun_launch_bound n s hinv.2
    omega

/-- Witness for C2 at the idle state: the first call launches a publish
and a burst of 5 calls launches at most 2. -/
theorem publish_counter_bounded_and_debounced_witness :
    pubRequest { counter := 0, running := 0 }
      = ({ counter := 1, running := 1 }, true) ∧
    (requestRun 5 { counter := 0, running := 0 }).2 ≤ 2 := by
  have h := publish_counter_bounded_and_debounced
  exact ⟨h.2.1 { counter := 0, running := 0 } (by decide),
         h.2.2.2.2 { counter := 0, running := 0 } PubReach.init 5⟩

/-- Claim C3 (counterexample): when the connect attempt fails with the
fatal link-layer error `Wifi Internal Error`, the loop body sleeps the
5000 ms backoff *before* invoking `machine.reset()` (lines 281-283), so
a backoff wait does run for that failure, contrary to the claim that no
backoff wait runs. -/
theorem fatal_link_backoff_wait_occurs :
    connectLoop [ConnOutcome.err wifiFatalMsg]
      = [ConnAct.attempt, ConnAct.backoffSleep 5000, ConnAct.deviceReset] ∧
    ConnAct.backoffSleep 5000 ∈ connectLoop [ConnOutcome.err wifiFatalMsg] := by
  decide

/-- Claim C3 (amended): when the transport connect attempt fails with
the fatal link-layer error, the device restart is invoked and no
further connect attempt runs for that failure — but the restart comes
after the single 5-second backoff sleep of that iteration, not
immediately. -/
theorem fatal_link_reset_after_single_backoff (rest : List ConnOutcome) :
    connectLoop (ConnOutcome.err wifiFatalMsg :: rest)
      = [ConnAct.attempt, ConnAct.backoffSleep 5000, ConnAct.deviceReset] := by
  simp [connectLoop]

/-- Claim C6 (counterexample): on a read-only server register holding
value 0, the local-mutation path (`set_value_local`, inherited
unchanged from `ServerRegister`) with argument 1 raises nothing,
changes the stored value to 1, and even requests a publish — so not
every mutation path fails and leaves the value unchanged. -/
theorem read_only_local_set_mutates :
    (ServerReadOnlyRegister.set_value_local
        { name := ['r', 'o'], value := JVal.jnum 0, hasRegistry := true }
        (JVal.jnum 1)).1.value = JVal.jnum 1 ∧
    (ServerReadOnlyRegister.set_value_local
        { name := ['r', 'o'], value := JVal.jnum 0, hasRegistry := true }
        (JVal.jnum 1)).2 = true := by
  decide

/-- Claim C6 (amended): for a read-only server register, every
`set_value` call — the remote mutation path, for any argument value —
fails with a `ReadOnlyViolation` and leaves the stored value unchanged
(the error result carries no new state, so the caller keeps the old
register); the local-mutation path `set_value_local` is inherited from
the writable base class and is not rejected: it stores the argument
value. -/
theorem read_only_remote_set_rejected (r : ServerRegState) (v : JVal) :
    ServerReadOnlyRegister.set_value r v
      = Except.error RegError.readOnlyViolation ∧
    (ServerReadOnlyRegister.set_value_local r v).1.value = v := by
  refine ⟨rfl, ?_⟩
  unfold ServerReadOnlyRegister.set_value_local ServerRegister.set_value_local
  by_cases h : r.value = v
  · simp [h]
  · simp [h]

/-- Claim C7: for a writable server register with its registry
attached, `set_value_local` publishes iff the new value differs from
the current one: on an equal value it does nothing (no publish, state
unchanged), on a different value it stores the new value and notifies
the registry. -/
theorem set_value_local_publishes_iff_changed (r : ServerRegState) (v : JVal)
    (hreg : r.hasRegistry = true) :
    (r.value = v → ServerRegister.set_value_local r v = (r, false)) ∧
    (r.value ≠ v →
        ServerRegister.set_value_local r v = ({ r with value := v }, true)) ∧
    ((ServerRegister.set_value_local r v).2 = true ↔ r.value ≠ v) := by
  unfold ServerRegister.set_value_local
  by_cases h : r.value = v
  · simp [h]
  · simp [h, hreg]

/-- Witness for C7: a concrete changed write publishes. -/
theorem set_value_local_publishes_iff_changed_witness :
    ServerRegister.set_value_local
        { name := ['w'], value := JVal.null, hasRegistry := true }
        (JVal.jnum 3)
      = ({ name := ['w'], value := JVal.jnum 3, hasRegistry := true }, true) := by
  exact (set_value_local_publishes_iff_changed
      { name := ['w'], value := JVal.null, hasRegistry := true }
      (JVal.jnum 3) rfl).2.1 (by decide)

/-- Claim C8: `advertise_registers` does nothing when the reentrancy
flag is set; otherwise the broadcast task publishes
`register/<name>/advertise` with each server register's metadata for
every server register in declared order (when all publishes succeed),
and the flag ends cleared whatever the publish outcomes; with no server
registers declared, no outbound publish occurs and the flag ends
cleared. -/
theorem advertise_registers_guarded_ordered_flag_cleared :
    (∀ (names : List LStr) (metaOf : LStr → JVal) (ok : Nat → Bool),
        Registry.advertise_registers true names metaOf ok = (true, [])) ∧
    (∀ (names : List LStr) (metaOf : LStr → JVal),
        Registry.advertise_registers false names metaOf (fun _ => true)
          = (false, names.map (fun n => (advTopic n, metaOf n)))) ∧
    (∀ (metaOf : LStr → JVal) (ok : Nat → Bool),
        Registry.advertise_registers false [] metaOf ok = (false, [])) ∧
    (∀ (names : List LStr) (metaOf : LStr → JVal) (ok : Nat → Bool),
        (Registry.advertise_registers false names metaOf ok).1 = false) := by
  refine ⟨?_, ?_, ?_, ?_⟩
  · intro names metaOf ok
    rfl
  · intro names metaOf
    unfold Registry.advertise_registers
    simp only [Bool.false_eq_true, if_false]
    have hbody : ∀ ns : List LStr,
        advertiseBody metaOf ns (fun _ => true)
          = ns.map (fun n => (advTopic n, metaOf n)) := by
      intro ns
      induction ns with
      | nil => rfl
      | cons n rest ih => simp [advertiseBody, ih]
    rw [hbody]
  · intro metaOf ok
    rfl
  · intro names metaOf ok
    rfl

/-- Claim C4: for the persistent register variants, `set_value v`
followed immediately by `get_value` returns `v`, including when the
read goes through a freshly constructed register instance over the same
store (construction with the key already present leaves the store
untouched); the boolean codec stores exactly one byte, `1` for true and
`0` for false, and the float codec stores the 4-byte native
machine-float representation (the 32-bit pattern of the value). -/
theorem persistent_register_roundtrip (db : Store) (name : String)
    (b dfltB : Bool) (v dfltF : Nat) :
    (PersistentServerRegister.get_value booleanCodec name
        (PersistentServerRegister.set_value booleanCodec name b db) = b) ∧
    (PersistentServerRegister.get_value booleanCodec name
        (PersistentServerRegister.construct booleanCodec name dfltB
          (PersistentServerRegister.set_value booleanCodec name b db)) = b) ∧
    (booleanCodec.to_bytes true = [1] ∧ booleanCodec.to_bytes false = [0] ∧
      (booleanCodec.to_bytes b).length = 1) ∧
    ((floatCodec.to_bytes v).length = 4) ∧
    (v < 4294967296 →
      PersistentServerRegister.get_value floatCodec name
          (PersistentServerRegister.set_value floatCodec name v db) = v ∧
      PersistentServerRegister.get_value floatCodec name
          (PersistentServerRegister.construct floatCodec name dfltF
            (PersistentServerRegister.set_value floatCodec name v db)) = v) := by
  refine ⟨?_, ?_, ⟨rfl, rfl, ?_⟩, rfl, ?_⟩
  · exact get_value_after_set booleanCodec name b db (booleanCodec_roundtrip b)
  · rw [construct_after_set]
    exact get_value_after_set booleanCodec name b db (booleanCodec_roundtrip b)
  · cases b <;> rfl
  · intro hv
    refine ⟨?_, ?_⟩
    · exact get_value_after_set floatCodec name v db (floatCodec_roundtrip v hv)
    · rw [construct_after_set]
      exact get_value_after_set floatCodec name v db (floatCodec_roundtrip v hv)

/-- Witness for C4 at a concrete store, name and float value. -/
theorem persistent_register_roundtrip_witness :
    (3 : Nat) < 4294967296 ∧
    PersistentServerRegister.get_value floatCodec "f"
        (PersistentServerRegister.set_value floatCodec "f" 3 []) = 3 := by
  exact ⟨by decide,
    ((persistent_register_roundtrip [] "f" true true 3 0).2.2.2.2 (by decide)).1⟩

/-- Claim C9: persistent registers constructed without an explicit
store handle share one process-wide default store that is lazily opened
on first access and opened at most once (a startup sequence of such
constructions opens it zero times if empty, exactly once otherwise, and
a cached handle is returned as-is); and the construction writes the
caller-supplied default to the store iff the register's name is absent
from it. -/
theorem default_db_lazy_open_once_and_default_write :
    (∀ (onOpen : Store) (reqs : List (String × List Nat)),
        (constructAll onOpen { defaultDb := none, openCount := 0 } reqs).openCount
          = if reqs.isEmpty then 0 else 1) ∧
    (∀ (onOpen : Store) (s : ProcState) (db : Store), s.defaultDb = some db →
        get_default_db onOpen s = (db, s)) ∧
    (∀ (name : String) (dbytes : List Nat) (db : Store),
        storeContains db name = true →
          PersistentServerRegister.constructRaw name dbytes db = db) ∧
    (∀ (name : String) (dbytes : List Nat) (db : Store),
        storeContains db name = false →
          storeGet (PersistentServerRegister.constructRaw name dbytes db) name
            = dbytes) := by
  refine ⟨?_, ?_, ?_, ?_⟩
  · intro onOpen reqs
    cases reqs with
    | nil => rfl
    | cons r rs =>
        have hstep : constructWithDefaultDb onOpen r.1 r.2
              { defaultDb := none, openCount := 0 }
            = { defaultDb :=
                  some (PersistentServerRegister.constructRaw r.1 r.2 onOpen),
                openCount := 1 } := by
          unfold constructWithDefaultDb get_default_db
          rfl
        rw [constructAll, hstep]
        have := constructAll_opened onOpen rs
          { defaultDb :=
              some (PersistentServerRegister.constructRaw r.1 r.2 onOpen),
            openCount := 1 } (by simp)
        simp only [List.isEmpty_cons, if_false, Bool.false_eq_true]
        exact this.2
  · intro onOpen s db h
    simp [get_default_db, h]
  · intro name dbytes db h
    simp [PersistentServerRegister.constructRaw, h]
  · intro name dbytes db h
    simp [PersistentServerRegister.constructRaw, h, storeFlush, storeGet_storeSet]

/-- Witness for C9: two default-store constructions open the store
exactly once, and a cached handle is reused. -/
theorem default_db_lazy_open_once_witness :
    (constructAll [] { defaultDb := none, openCount := 0 }
        [("a", [1]), ("b", [0])]).openCount = 1 ∧
    get_default_db [] { defaultDb := some [("a", [1])], openCount := 1 }
      = ([("a", [1])], { defaultDb := some [("a", [1])], openCount := 1 }) := by
  have h := default_db_lazy_open_once_and_default_write
  constructor
  · exact (h.1 [] [("a", [1]), ("b", [0])]).trans (by decide)
  · exact h.2.1 [] { defaultDb := some [("a", [1])], openCount := 1 }
      [("a", [1])] rfl

/-- Claim C1: the dispatch loop survives bad messages: every
non-retained inbound message produces exactly one recorded per-message
outcome (so no message terminates the loop), handling of each
non-retained message is contained at the per-message boundary and the
loop continues with the remaining messages from the post-message state,
and in particular an inbound `register/unknown/set` for an undeclared
name yields a caught `unknownRegister` error after which the next
message is still processed. -/
theorem dispatch_loop_survives_bad_messages :
    (∀ (s : RegistryState) (msgs : List Msg),
        (Registry.read_messages s msgs).2.length
          = (msgs.filter (fun m => !m.retained)).length) ∧
    (∀ (s : RegistryState) (t : LStr) (p : Payload) (ms : List Msg),
        Registry.read_messages s
            ({ topic := t, payload := p, retained := false } :: ms)
          = ((Registry.read_messages (Registry.handle_message s t p).1 ms).1,
             (Registry.handle_message s t p).2 ::
               (Registry.read_messages (Registry.handle_message s t p).1 ms).2)) ∧
    ((Registry.read_messages (initRegistry [] [])
        [{ topic := mkTopic ['u', 'n', 'k', 'n', 'o', 'w', 'n'] setEnding,
           payload := Payload.empty, retained := false },
         { topic := advertiseTopic, payload := Payload.empty,
           retained := false }]).2
      = [some RegError.unknownRegister, none]) := by
  refine ⟨?_, ?_, ?_⟩
  · intro s msgs
    induction msgs generalizing s with
    | nil => rfl
    | cons m ms ih =>
        cases hr : m.retained
        · simp [Registry.read_messages, hr, List.filter_cons, ih]
        · simp [Registry.read_messages, hr, List.filter_cons, ih]
  · intro s t p ms
    rfl
  · decide

/-- Claim C10: handling an inbound `register/<name>/is` message whose
name is not a declared client register first mutates the liveness-timer
registry — `reset_client_timeout` installs a fresh timer task for that
name (cancelling any prior one) — and only then raises `KeyError` on
the client-collection lookup; the caught error therefore leaves a live
(uncancelled) polling task for the unknown name installed. -/
theorem is_message_unknown_name_installs_timer
    (s : RegistryState) (name : LStr) (p : Payload) (v : JVal)
    (hdec : decodePayload p = Except.ok v)
    (hname : lookupD s.clientRegs name = none)
    (hcancelled : ∀ tid, tid ∈ s.cancelledTasks → tid < s.nextTaskId)
    (hinstalled : ∀ n tid,
        lookupD s.client_timeouts n = some tid → tid < s.nextTaskId) :
    (Registry.handle_message s (mkTopic name isEnding) p).2
        = some RegError.unknownRegister ∧
    lookupD
        (Registry.handle_message s (mkTopic name isEnding) p).1.client_timeouts
        name
      = some s.nextTaskId ∧
    s.nextTaskId ∉
      (Registry.handle_message s (mkTopic name isEnding) p).1.cancelledTasks := by
  have hne := mkTopic_is_ne_advertise name
  have hstarts := mkTopic_startsWith_head name isEnding
  have hget := mkTopic_is_not_get name
  have hset := mkTopic_is_not_set name
  have his := mkTopic_is_endsWith name
  have hslice : sliceName (mkTopic name isEnding) 3 = name := by
    have h3 := sliceName_mkTopic name isEnding
    simpa [isEnding] using h3
  have hm : Registry.handle_message s (mkTopic name isEnding) p
      = (Registry.reset_client_timeout s name, some RegError.unknownRegister) := by
    unfold Registry.handle_message
    rw [if_neg hne]
    rw [hstarts, hget, hset, his, hslice]
    simp only [if_true, if_false]
    rw [hdec]
    unfold clientSetValue
    rw [reset_clientRegs, hname]
    simp
  refine ⟨by rw [hm], ?_, ?_⟩
  · rw [hm]
    exact reset_installs_fresh s name
  · rw [hm]
    rcases hold : lookupD s.client_timeouts name with _ | old
    · rw [reset_cancelled_none s name hold]
      intro hmem
      exact absurd (hcancelled _ hmem) (lt_irrefl _)
    · rw [reset_cancelled_some s name old hold]
      intro hmem
      rw [List.mem_cons] at hmem
      rcases hmem with heq | hmem
      · exact absurd (heq ▸ hinstalled name old hold) (lt_irrefl _)
      · exact absurd (hcancelled _ hmem) (lt_irrefl _)

/-- Witness for C10: from the freshly initialised engine with no
declared client registers, an `is` message for name `x` leaves the
caught error and a live installed timer task. -/
theorem is_message_unknown_name_installs_timer_witness :
    (Registry.handle_message (initRegistry [] [])
        (mkTopic ['x'] isEnding) Payload.empty).2
      = some RegError.unknownRegister ∧
    lookupD
        (Registry.handle_message (initRegistry [] [])
          (mkTopic ['x'] isEnding) Payload.empty).1.client_timeouts
        ['x']
      = some 0 ∧
    (0 : Nat) ∉
      (Registry.handle_message (initRegistry [] [])
        (mkTopic ['x'] isEnding) Payload.empty).1.cancelledTasks := by
  exact is_message_unknown_name_installs_timer (initRegistry [] []) ['x']
    Payload.empty JVal.null rfl rfl
    (fun tid ht => by simp [initRegistry] at ht)
    (fun n tid hl => by simp [initRegistry, lookupD] at hl)

/-- Claim C5: at most one liveness timer task is live per client
register name (any two uncancelled created tasks for a name coincide);
`reset_client_timeout` cancels the existing timer task for the name
before installing its fresh replacement; under cooperative cancellation
semantics, a cancelled task never fires any pending action afterwards;
and the timer-task body skips the pre-poll sleep only on the immediate
first invocation, otherwise sleeping a jittered duration which lies in
`[8000, 12000]` ms whenever `random.randint(8000, 12000)` does. -/
theorem reset_liveness_single_timer_and_jitter :
    (∀ names : List LStr,
        atMostOneLiveTimer (resetSeq (initRegistry [] []) names)) ∧
    (∀ (s : RegistryState) (n : LStr) (tid : Nat),
        lookupD s.client_timeouts n = some tid →
          tid ∈ (Registry.reset_client_timeout s n).cancelledTasks ∧
          lookupD (Registry.reset_client_timeout s n).client_timeouts n
            = some s.nextTaskId) ∧
    (∀ (s : RegistryState) (evs : List TimerEv), validTrace s evs = true →
        ∀ tid, tid ∈ s.cancelledTasks → ∀ a, TimerEv.fire tid a ∉ evs) ∧
    (∀ (js : Nat → Nat) (n : Nat),
        timerRun true js (n + 1)
          = TimerAct.publishGet :: TimerAct.sleepFixed 10000 ::
              TimerAct.clearValue :: timerRun false (fun i => js (i + 1)) n) ∧
    (∀ (js : Nat → Nat) (n : Nat),
        timerRun false js (n + 1)
          = TimerAct.sleepJitter (js 0) :: TimerAct.publishGet ::
              TimerAct.sleepFixed 10000 :: TimerAct.clearValue ::
                timerRun false (fun i => js (i + 1)) n) ∧
    (∀ js : Nat → Nat, (∀ i, 8000 ≤ js i ∧ js i ≤ 12000) →
        ∀ (first : Bool) (n ms : Nat),
          TimerAct.sleepJitter ms ∈ timerRun first js n →
            8000 ≤ ms ∧ ms ≤ 12000) := by
  refine ⟨?_, ?_, ?_, ?_, ?_, ?_⟩
  · intro names
    exact atMostOne_of_inv _
      (timerInv_resetSeq names _ (timerInv_init [] []))
  · intro s n tid h
    exact ⟨reset_cancels_old s n tid h, reset_installs_fresh s n⟩
  · intro s evs hv
    exact validTrace_no_cancelled_fire evs s hv
  · intro js n
    simp [timerRun]
  · intro js n
    simp [timerRun]
  · intro js hjs first n
    induction n generalizing js first with
    | zero =>
        intro ms hmem
        simp [timerRun] at hmem
    | succ m ih =>
        intro ms hmem
        simp only [timerRun] at hmem
        rw [List.mem_append] at hmem
        rcases hmem with hmem | hmem
        · cases first
          · simp only [if_false, Bool.false_eq_true, List.mem_singleton] at hmem
            have : ms = js 0 := by
              simpa using hmem
            exact this ▸ hjs 0
          · simp at hmem
        · rw [List.mem_cons] at hmem
          rcases hmem with h | hmem
          · simp at h
          · rw [List.mem_cons] at hmem
            rcases hmem with h | hmem
            · simp at h
            · rw [List.mem_cons] at hmem
              rcases hmem with h | hmem
              · simp at h
              · exact ih (fun i => js (i + 1)) (fun i => hjs (i + 1)) false
                  ms hmem

/-- Witness for C5: the second reset for the same name cancels the
first task, and a concrete jitter value is within bounds. -/
theorem reset_liveness_single_timer_and_jitter_witness :
    (0 ∈ (Registry.reset_client_timeout
        (Registry.reset_client_timeout (initRegistry [] []) ['a'])
        ['a']).cancelledTasks) ∧
    (8000 ≤ 9000 ∧ 9000 ≤ 12000) := by
  have h := reset_liveness_single_timer_and_jitter
  constructor
  · exact (h.2.1 (Registry.reset_client_timeout (initRegistry [] []) ['a'])
      ['a'] 0 (by decide)).1
  · exact h.2.2.2.2.2 (fun _ => 9000) (fun i => by simp)
      false 1 9000 (by decide)

end MqttReg
